import Mathlib

/-!
Verification development for the Fortify-AI analysis core.

The definitions below are a shallow embedding of the Python sources
(`architecture_model.py`, `simulation.py`, `security_analysis.py`,
`orchestrator.py`, `remediation_agent.py`).  Python dicts (which preserve
insertion order) are modelled as association lists with Python assignment
semantics; Python floats are modelled as rationals; Python exceptions are
modelled with `Except`/`Option` results.
-/

/-- Lexicographic comparison of character lists by code point, the order
Python uses to compare strings. -/
def charListLe : List Char → List Char → Bool
  | [], _ => true
  | _ :: _, [] => false
  | a :: as, b :: bs =>
    if a.toNat < b.toNat then true
    else if b.toNat < a.toNat then false
    else charListLe as bs

/-- Python string comparison `a <= b` (code-point lexicographic). -/
def strLe (a b : String) : Bool := charListLe a.data b.data

/-- Python's `str.lower()` restricted to what the sources feed it
(criticality and severity labels). -/
def strToLower (s : String) : String := String.mk (s.data.map Char.toLower)

instance {ε α : Type} [DecidableEq ε] [DecidableEq α] : DecidableEq (Except ε α)
  | Except.error x, Except.error y => decidable_of_iff (x = y) (by simp)
  | Except.error _, Except.ok _ => isFalse (by simp)
  | Except.ok _, Except.error _ => isFalse (by simp)
  | Except.ok x, Except.ok y => decidable_of_iff (x = y) (by simp)

/-- Insertion-ordered dictionary, modelling a Python `dict`. -/
abbrev Dict (α : Type) := List (String × α)

/-- `d.get(key)` / `d[key]` lookup: first (and in practice only) binding wins. -/
def dictGet? {α : Type} : Dict α → String → Option α
  | [], _ => none
  | (k, v) :: d, key => if k = key then some v else dictGet? d key

/-- `key in d` membership test on a Python dict. -/
def dictContains {α : Type} (d : Dict α) (key : String) : Bool :=
  (dictGet? d key).isSome

/-- `d.keys()` in insertion order. -/
def dictKeys {α : Type} (d : Dict α) : List String :=
  d.map Prod.fst

/-- `d[key] = v`: replace in place when the key exists, append otherwise. -/
def dictSet {α : Type} : Dict α → String → α → Dict α
  | [], key, v => [(key, v)]
  | (k, w) :: d, key, v => if k = key then (k, v) :: d else (k, w) :: dictSet d key v

/-- In-place update of the value stored at `key` (models mutating a dict value,
such as `d[key].append(x)`); a no-op when the key is absent (the sources only
use it on keys that are present). -/
def dictModify {α : Type} : Dict α → String → (α → α) → Dict α
  | [], _, _ => []
  | (k, w) :: d, key, f => if k = key then (k, f w) :: d else (k, w) :: dictModify d key f

/-- `Component` dataclass from `architecture_model.py`. -/
structure Component where
  name : String
  ctype : String
  public : Bool := false
  depends_on : List String := []
  criticality : String := "medium"
deriving DecidableEq, Repr

/-- `Architecture` dataclass from `architecture_model.py`.  The two `Prop`
fields record what holds of every architecture produced by
`Architecture.from_dict`: dict keys are unique, and every key equals its
Component's own `name` (the invariant stated in the data model). -/
structure Architecture where
  system_name : String
  components : Dict Component
  nodup_keys : (components.map Prod.fst).Nodup
  key_eq_name : ∀ p ∈ components, p.2.name = p.1

/-- One step of the inner `for dep in comp.depends_on` loop of
`build_dependency_graphs`: append `dep` to `forward_graph[name]`, create
`reverse_graph[dep]` if missing, and append `name` to it. -/
def depStep (name : String) (g : Dict (List String) × Dict (List String)) (dep : String) :
    Dict (List String) × Dict (List String) :=
  let fg := dictModify g.1 name (fun l => l ++ [dep])
  let rg := if dictContains g.2 dep then g.2 else dictSet g.2 dep []
  let rg := dictModify rg dep (fun l => l ++ [name])
  (fg, rg)

/-- One step of the outer `for name, comp in components.items()` loop of
`build_dependency_graphs`. -/
def compStep (g : Dict (List String) × Dict (List String)) (p : String × Component) :
    Dict (List String) × Dict (List String) :=
  let fg := dictSet g.1 p.1 []
  p.2.depends_on.foldl (depStep p.1) (fg, g.2)

/-- The trailing `setdefault` pass of `build_dependency_graphs`. -/
def setdefaultPass (d : Dict (List String)) (components : Dict Component) :
    Dict (List String) :=
  components.foldl (fun d p => if dictContains d p.1 then d else dictSet d p.1 []) d

/-- `build_dependency_graphs` from `architecture_model.py`: returns the
forward and reverse dependency graphs. -/
def build_dependency_graphs (arch : Architecture) :
    Dict (List String) × Dict (List String) :=
  let components := arch.components
  let reverse_graph : Dict (List String) := components.map (fun p => (p.1, []))
  let g := components.foldl compStep ([], reverse_graph)
  (setdefaultPass g.1 components, setdefaultPass g.2 components)

/-- Floor of a rational, computed structurally (denominators are positive, so
flooring division of the numerator by the denominator is the floor). -/
def qfloor (q : ℚ) : ℤ := Int.fdiv q.num q.den

/-- Round a rational to the nearest integer, ties to even — the rounding used
by Python's built-in `round`. -/
def roundHalfEven (q : ℚ) : ℤ :=
  let f := qfloor q
  if q - (f : ℚ) < 1/2 then f
  else if q - (f : ℚ) > 1/2 then f + 1
  else if f % 2 = 0 then f else f + 1

/-- Python's `round(x, 2)` modelled on rationals. -/
def round2 (q : ℚ) : ℚ := (roundHalfEven (q * 100) : ℚ) / 100

/-- `FailureResult` dataclass from `simulation.py` (severity as a rational). -/
structure FailureResult where
  failed_component : String
  impacted_components : List String
  user_visible_impact : Bool
  severity_score : ℚ
  notes : String := ""
deriving DecidableEq, Repr

/-- The ways `simulate_failure` can raise: the explicit `ValueError` for an
unknown component, and a `KeyError` from `compute_severity` looking up an
impacted name that is not a component. -/
inductive SimError where
  | unknownComponent
  | keyError
deriving DecidableEq, Repr

/-- `reverse_graph.get(current, [])`. -/
def rgGet (rg : Dict (List String)) (k : String) : List String :=
  (dictGet? rg k).getD []

/-- All names occurring in a graph dict (keys and adjacency-list entries);
a finite universe containing every node the traversal can ever visit. -/
def rgNodes (rg : Dict (List String)) : List String :=
  dictKeys rg ++ (rg.map Prod.snd).flatten

/-- Total number of adjacency-list entries of a graph dict. -/
def rgOut (rg : Dict (List String)) : Nat :=
  ((rg.map Prod.snd).map List.length).sum

/-- Termination measure for the traversal loop of `simulate_failure`:
it strictly decreases at every iteration. -/
def simMeasure (rg : Dict (List String)) (impacted stack : List String) : Nat :=
  ((rgNodes rg).filter (fun x => decide (x ∉ impacted))).length * (1 + rgOut rg)
    + stack.length

/-- Fuel that provably dominates `simMeasure` when `impacted` is empty. -/
def simFuel (rg : Dict (List String)) (stack : List String) : Nat :=
  (rgNodes rg).length * (1 + rgOut rg) + stack.length

/-- The `while stack:` worklist loop of `simulate_failure`, with explicit
fuel.  The stack is held top-first (Python pushes to and pops from the end of
its list, so pushing the reversal of the new nodes preserves the pop order);
`none` means the fuel ran out, which `simLoop_isSome_of_measure_le` shows
never happens for the fuel chosen by `simulate_failure`. -/
def simLoop (rg : Dict (List String)) :
    Nat → List String → List String → Option (List String)
  | _, impacted, [] => some impacted
  | 0, _, _ :: _ => none
  | fuel + 1, impacted, current :: rest =>
    if current ∈ impacted then simLoop rg fuel impacted rest
    else
      let impacted2 := current :: impacted
      let newNodes := (rgGet rg current).filter (fun d => decide (d ∉ impacted2))
      simLoop rg fuel impacted2 (newNodes.reverse ++ rest)

/-- The critical component types shared by `compute_severity` and
`generate_failure_scenarios`. -/
def critical_types : List String := ["database", "gateway", "external_api", "queue"]

/-- The body of the `for name in impacted_components` loop of
`compute_severity`: the lookup `components[name]` raises `KeyError` when the
name is not a key, modelled by `none`. -/
def severityStep (components : Dict Component) (score : ℚ) (name : String) : Option ℚ := do
  let comp ← dictGet? components name
  let score := if comp.ctype ∈ critical_types then score + 0.5 else score
  let crit := strToLower comp.criticality
  let score := if crit = "high" then score + 1.0
    else if crit = "medium" then score + 0.5
    else score
  pure score

/-- `compute_severity` from `simulation.py`; `none` models a `KeyError`
raised by a per-component lookup. -/
def compute_severity (arch : Architecture) (impacted_components : List String)
    (user_visible_impact : Bool) : Option ℚ :=
  let components := arch.components
  let score : ℚ := 0.0
  let score := score + min ((impacted_components.length : ℚ) * 1.0) 5.0
  let score := if user_visible_impact then score + 3.0 else score
  (impacted_components.foldlM (severityStep components) score).map (fun score =>
    let score := if score > 10.0 then 10.0 else score
    let score := if score < 0.0 then 0.0 else score
    round2 score)

/-- `_get_public_entrypoints` from `simulation.py`. -/
def _get_public_entrypoints (arch : Architecture) : List String :=
  (arch.components.filter (fun p => p.2.public)).map Prod.fst

/-- The impacted set computed by the `while stack:` loop of
`simulate_failure`, in discovery order (Python keeps it as a set; only its
membership is observable, the reported list is sorted). -/
def simImpacted (arch : Architecture) (failed_component : String) : List String :=
  let reverse_graph := (build_dependency_graphs arch).2
  (simLoop reverse_graph (simFuel reverse_graph [failed_component])
    [] [failed_component]).getD []

/-- `simulate_failure` from `simulation.py`. -/
def simulate_failure (arch : Architecture) (failed_component : String) :
    Except SimError FailureResult :=
  if failed_component ∉ dictKeys arch.components then
    Except.error SimError.unknownComponent
  else
    let impacted_list := simImpacted arch failed_component
    let public_entrypoints := _get_public_entrypoints arch
    let user_visible_impact :=
      public_entrypoints.any (fun name => decide (name ∈ impacted_list))
    match compute_severity arch impacted_list user_visible_impact with
    | none => Except.error SimError.keyError
    | some severity_score =>
      let notes := if user_visible_impact then "User-facing components are affected."
        else "No direct impact on public entrypoints."
      Except.ok {
        failed_component := failed_component,
        impacted_components := List.insertionSort (fun a b => strLe a b = true) impacted_list,
        user_visible_impact := user_visible_impact,
        severity_score := severity_score,
        notes := notes }

/-- `generate_failure_scenarios` from `simulation.py`. -/
def generate_failure_scenarios (arch : Architecture) : List String :=
  let scenarios := arch.components.foldl
    (fun scenarios p => if p.2.ctype ∈ critical_types then scenarios ++ [p.1] else scenarios)
    []
  if scenarios = [] then arch.components.map Prod.fst else scenarios

/-- `SecurityRisk` dataclass from `security_analysis.py`. -/
structure SecurityRisk where
  component : String
  risk_type : String
  severity : String
  description : String
  suggestion : String
deriving DecidableEq, Repr

/-- The risk emitted by rule 1 of `analyze_security` (public-facing
service/gateway/web client: DoS). -/
def risk_rule1 (comp : Component) : SecurityRisk where
  component := comp.name
  risk_type := "Denial-of-Service"
  severity := "High"
  description := comp.name ++ " is a public-facing " ++ comp.ctype
    ++ ". It may be vulnerable to traffic floods (DoS/DDoS) if not protected."
  suggestion := "Implement rate limiting, request throttling, and possibly a Web Application Firewall (WAF). Monitor traffic patterns and add alerting for abnormal spikes."

/-- The risk emitted by rule 2 of `analyze_security` (public database). -/
def risk_rule2 (comp : Component) : SecurityRisk where
  component := comp.name
  risk_type := "Data Exposure"
  severity := "High"
  description := comp.name ++ " is a database flagged as public. Databases should never be directly exposed to the internet."
  suggestion := "Place the database in a private subnet and restrict access via application services only."

/-- The risk emitted by rule 3 of `analyze_security` (external API dependency). -/
def risk_rule3 (comp : Component) : SecurityRisk where
  component := comp.name
  risk_type := "External Dependency Risk"
  severity := "Medium"
  description := comp.name ++ " depends on an external API which may fail, be rate limited, or compromised."
  suggestion := "Implement timeouts, retries with backoff, and fallback strategies. Cache responses where possible and handle failures gracefully."

/-- The body of the `for comp in arch.components.values()` loop of
`analyze_security`; the accumulator carries the risk list and the `seen`
set of de-duplication keys (a list, used only through membership). -/
def securityStep (acc : List SecurityRisk × List (String × String)) (comp : Component) :
    List SecurityRisk × List (String × String) :=
  let acc :=
    if comp.public = true ∧ comp.ctype ∈ ["gateway", "service", "web_client"] then
      if (comp.name, "DoS") ∈ acc.2 then acc
      else (acc.1 ++ [risk_rule1 comp], acc.2 ++ [(comp.name, "DoS")])
    else acc
  let acc :=
    if comp.public = true ∧ comp.ctype = "database" then
      if (comp.name, "Data Exposure") ∈ acc.2 then acc
      else (acc.1 ++ [risk_rule2 comp], acc.2 ++ [(comp.name, "Data Exposure")])
    else acc
  if comp.ctype = "external_api" then
    if (comp.name, "External API") ∈ acc.2 then acc
    else (acc.1 ++ [risk_rule3 comp], acc.2 ++ [(comp.name, "External API")])
  else acc

/-- `analyze_security` from `security_analysis.py`. -/
def analyze_security (arch : Architecture) : List SecurityRisk :=
  ((arch.components.map Prod.snd).foldl securityStep ([], [])).1

/-- Concatenation of the images of a list-valued function, in order. -/
def flatMapList {α β : Type} (f : α → List β) : List α → List β
  | [] => []
  | a :: l => f a ++ flatMapList f l

/-- Modelled from the spec: the fixed three-rule security table of section 4.4,
applied to a single component (the specification-side description that
`analyze_security` is compared against). -/
def specRiskTable (comp : Component) : List SecurityRisk :=
  (if comp.public = true ∧ comp.ctype ∈ ["gateway", "service", "web_client"]
    then [risk_rule1 comp] else [])
  ++ (if comp.public = true ∧ comp.ctype = "database" then [risk_rule2 comp] else [])
  ++ (if comp.ctype = "external_api" then [risk_rule3 comp] else [])

/-- The de-duplication keys `securityStep` adds for a single component. -/
def specSeenKeys (comp : Component) : List (String × String) :=
  (if comp.public = true ∧ comp.ctype ∈ ["gateway", "service", "web_client"]
    then [(comp.name, "DoS")] else [])
  ++ (if comp.public = true ∧ comp.ctype = "database"
    then [(comp.name, "Data Exposure")] else [])
  ++ (if comp.ctype = "external_api" then [(comp.name, "External API")] else [])

/-- `ScenarioSummary` dataclass from `orchestrator.py`. -/
structure ScenarioSummary where
  scenario_name : String
  failed_component : String
  severity : ℚ
  user_visible_impact : Bool
  impacted_components : List String
deriving DecidableEq, Repr

/-- `SystemReport` dataclass from `orchestrator.py`. -/
structure SystemReport where
  system_name : String
  scenarios : List ScenarioSummary
  security_risks : List SecurityRisk
  overall_resilience_score : ℚ
  worst_case_severity : ℚ
deriving DecidableEq, Repr

/-- `ReportingAgent.run` from `orchestrator.py` (the context parameter only
feeds the event log and is omitted). -/
def ReportingAgent.run (arch : Architecture) (scenarios : List ScenarioSummary)
    (security_risks : List SecurityRisk) : SystemReport :=
  let severities := scenarios.map (fun s => s.severity)
  let avg_severity : ℚ :=
    if scenarios.isEmpty then 0 else severities.sum / (severities.length : ℚ)
  let worst_severity : ℚ :=
    if scenarios.isEmpty then 0 else (severities.max?).getD 0
  let resilience_score := max 0 (10 - avg_severity)
  { system_name := arch.system_name
    scenarios := scenarios
    security_risks := security_risks
    overall_resilience_score := round2 resilience_score
    worst_case_severity := round2 worst_severity }

/-- Modelled from the spec: `clamp` used in the aggregation formula of
section 4.5. -/
def clampq (x lo hi : ℚ) : ℚ := max lo (min x hi)

/-- `RemediationSuggestion` dataclass from `remediation_agent.py`. -/
structure RemediationSuggestion where
  category : String
  target : String
  priority : String
  title : String
  details : String
deriving DecidableEq, Repr

/-- A suggestion-shaped object returned by the advisory collaborator: a JSON
dict whose expected fields may each be missing (`none`). -/
structure SuggestionDict where
  category : Option String := none
  target : Option String := none
  priority : Option String := none
  title : Option String := none
  details : Option String := none
deriving DecidableEq, Repr

/-- Passes 1-3 of `RemediationAgent.run`: the rule-based suggestions. -/
def ruleSuggestions (arch : Architecture) (report : SystemReport) :
    List RemediationSuggestion :=
  let suggestions : List RemediationSuggestion := []
  let suggestions :=
    if report.overall_resilience_score ≤ 4.0 then
      suggestions ++ [{
        category := "resilience", target := "system", priority := "high",
        title := "Improve overall fault tolerance",
        details := "The overall resilience score is low. Introduce redundancy (replicated services, database failover), implement graceful degradation paths, and validate recovery procedures for critical components." }]
    else suggestions
  let suggestions := report.scenarios.foldl (fun suggestions scenario =>
    if scenario.severity < 8.0 then suggestions
    else
      match dictGet? arch.components scenario.failed_component with
      | none => suggestions
      | some comp =>
        if comp.ctype = "database" then
          suggestions ++ [{
            category := "resilience", target := scenario.failed_component, priority := "high",
            title := "Add replication and backup for " ++ scenario.failed_component,
            details := "When " ++ scenario.failed_component ++ " fails, it impacts "
              ++ toString scenario.impacted_components.length
              ++ " components and is user-visible. Configure primary/replica setups, automated failover, and regular backup/restore drills." }]
        else if comp.ctype = "gateway" then
          suggestions ++ [{
            category := "resilience", target := scenario.failed_component, priority := "high",
            title := "Eliminate single point of failure at " ++ scenario.failed_component,
            details := scenario.failed_component ++ " is a critical gateway whose failure disrupts user access. Add multiple gateway instances behind a load balancer and implement health checks." }]
        else if comp.ctype = "external_api" then
          suggestions ++ [{
            category := "resilience", target := scenario.failed_component, priority := "high",
            title := "Introduce circuit breakers and fallbacks for " ++ scenario.failed_component,
            details := scenario.failed_component ++ " is an external dependency whose failure causes a high-severity impact. Use circuit breakers, timeouts, retries with backoff, and possibly alternative providers." }]
        else
          suggestions ++ [{
            category := "resilience", target := scenario.failed_component, priority := "medium",
            title := "Harden " ++ scenario.failed_component ++ " against failures",
            details := scenario.failed_component ++ " shows a high-severity failure scenario. Consider adding redundancy, better monitoring, and fallback logic specific to this component." }])
    suggestions
  report.security_risks.foldl (fun suggestions risk =>
    let priority := if strToLower risk.severity = "high" then "high" else "medium"
    suggestions ++ [{
      category := "security", target := risk.component, priority := priority,
      title := "Mitigate " ++ risk.risk_type ++ " on " ++ risk.component,
      details := risk.suggestion }])
    suggestions

/-- `RemediationAgent.run` from `remediation_agent.py`.  The optional
advisory collaborator (pass 4) is modelled by its observable outcome:
`none` when `LLMClient` is unavailable (failed import), `some (.error e)`
when any step of the `try` block raises (the `except` branch only logs and
adds nothing), and `some (.ok extra)` when the collaborator returns a list
of suggestion-shaped objects, whose missing fields are defaulted. -/
def RemediationAgent.run (arch : Architecture) (report : SystemReport)
    (llm_outcome : Option (Except String (List SuggestionDict))) :
    List RemediationSuggestion :=
  let suggestions := ruleSuggestions arch report
  match llm_outcome with
  | none => suggestions
  | some (Except.error _) => suggestions
  | some (Except.ok extra) =>
    suggestions ++ extra.map (fun s => {
      category := s.category.getD "resilience"
      target := s.target.getD "system"
      priority := s.priority.getD "medium"
      title := s.title.getD "AI-suggested remediation"
      details := s.details.getD "" })

/-- The worked three-component architecture of the specification (section 8):
gateway `G` (public) depends on service `S`, which depends on database `D`
(criticality high). -/
def archW : Architecture where
  system_name := "Worked"
  components :=
    [("G", { name := "G", ctype := "gateway", public := true, depends_on := ["S"] }),
     ("S", { name := "S", ctype := "service", depends_on := ["D"] }),
     ("D", { name := "D", ctype := "database", criticality := "high" })]
  nodup_keys := by decide
  key_eq_name := by decide

theorem roundHalfEven_intCast (n : ℤ) : roundHalfEven (n : ℚ) = n := by
  unfold roundHalfEven qfloor
  norm_num [Rat.num_intCast, Rat.den_intCast, Int.fdiv_one]

theorem round2_eq_self_of (q : ℚ) (k : ℤ) (h : q * 100 = k) : round2 q = q := by
  rw [round2, h, roundHalfEven_intCast, ← h]
  ring

theorem round2_nine : round2 9 = 9 := round2_eq_self_of 9 900 (by norm_num)

theorem compute_severity_archW :
    compute_severity archW ["G", "S", "D"] true = some 9 := by
  have h1 : strToLower "medium" = "medium" := by decide
  have h2 : strToLower "high" = "high" := by decide
  simp [compute_severity, severityStep, List.foldlM, archW, dictGet?, critical_types, h1, h2]
  norm_num [min_def, round2_nine]

/-- Claim C1: for the worked three-component architecture (public gateway G
depending on service S depending on high-criticality database D), simulating
the failure of D yields impacted components D, S, G (sorted), user-visible
impact, and severity score 9.0. -/
theorem claim_C1 :
    simulate_failure archW "D" = Except.ok
      { failed_component := "D", impacted_components := ["D", "G", "S"],
        user_visible_impact := true, severity_score := 9,
        notes := "User-facing components are affected." } := by
  have himp : simImpacted archW "D" = ["G", "S", "D"] := by decide
  have hsort : List.insertionSort (fun a b => strLe a b = true) ["G", "S", "D"]
      = ["D", "G", "S"] := by decide
  have hpub : (_get_public_entrypoints archW).any
      (fun name => decide (name ∈ (["G", "S", "D"] : List String))) = true := by decide
  simp only [simulate_failure]
  rw [if_neg (show ¬("D" ∉ dictKeys archW.components) from by decide)]
  rw [himp, hpub, hsort, compute_severity_archW]
  rfl

theorem dictGet?_isSome_iff {α : Type} (d : Dict α) (k : String) :
    (dictGet? d k).isSome = true ↔ k ∈ dictKeys d := by
  induction d with
  | nil => simp [dictGet?, dictKeys]
  | cons p d ih =>
    obtain ⟨k', v⟩ := p
    by_cases h : k' = k
    · subst h
      simp [dictGet?, dictKeys]
    · simp [dictGet?, dictKeys, h, ih, Ne.symm h]

theorem dictGet?_eq_none_of_not_mem {α : Type} {d : Dict α} {k : String}
    (h : k ∉ dictKeys d) : dictGet? d k = none := by
  cases hs : dictGet? d k with
  | none => rfl
  | some v =>
    exact absurd ((dictGet?_isSome_iff d k).mp (by simp [hs])) h

theorem dictGet?_mem {α : Type} {d : Dict α} {k : String} {v : α}
    (h : dictGet? d k = some v) : (k, v) ∈ d := by
  induction d with
  | nil => simp [dictGet?] at h
  | cons p d ih =>
    obtain ⟨k', w⟩ := p
    by_cases hk : k' = k
    · subst hk
      simp [dictGet?] at h
      simp [h]
    · simp [dictGet?, hk] at h
      simp [ih h]

theorem dictKeys_cons {α : Type} (p : String × α) (d : Dict α) :
    dictKeys (p :: d) = p.1 :: dictKeys d := rfl

theorem dictKeys_dictModify {α : Type} (d : Dict α) (k : String) (f : α → α) :
    dictKeys (dictModify d k f) = dictKeys d := by
  induction d with
  | nil => rfl
  | cons p d ih =>
    obtain ⟨k', w⟩ := p
    by_cases hk : k' = k <;> simp [dictModify, dictKeys_cons, hk, ih]

theorem mem_dictKeys_dictSet {α : Type} (d : Dict α) (k : String) (v : α) (x : String) :
    x ∈ dictKeys (dictSet d k v) ↔ x ∈ dictKeys d ∨ x = k := by
  induction d with
  | nil => simp [dictSet, dictKeys]
  | cons p d ih =>
    obtain ⟨k', w⟩ := p
    by_cases hk : k' = k
    · subst hk
      simp [dictSet, dictKeys_cons, List.mem_cons]
      tauto
    · simp only [dictSet, if_neg hk, dictKeys_cons, List.mem_cons, ih, or_assoc]

theorem mem_of_mem_dictSet {α : Type} {d : Dict α} {k : String} {v : α}
    {p : String × α} (h : p ∈ dictSet d k v) : p ∈ d ∨ p = (k, v) := by
  induction d with
  | nil => simp [dictSet] at h; simp [h]
  | cons q d ih =>
    obtain ⟨k', w⟩ := q
    by_cases hk : k' = k
    · subst hk
      simp [dictSet] at h
      rcases h with h | h
      · exact Or.inr (by simp [h])
      · exact Or.inl (by simp [h])
    · simp [dictSet, hk] at h
      rcases h with h | h
      · exact Or.inl (by simp [h])
      · rcases ih h with h | h
        · exact Or.inl (by simp [h])
        · exact Or.inr h

theorem mem_of_mem_dictModify {α : Type} {d : Dict α} {k : String} {f : α → α}
    {p : String × α} (h : p ∈ dictModify d k f) :
    p ∈ d ∨ ∃ w, (k, w) ∈ d ∧ p = (k, f w) := by
  induction d with
  | nil => simp [dictModify] at h
  | cons q d ih =>
    obtain ⟨k', w⟩ := q
    by_cases hk : k' = k
    · subst hk
      simp [dictModify] at h
      rcases h with h | h
      · exact Or.inr ⟨w, by simp, by simp [h]⟩
      · exact Or.inl (by simp [h])
    · simp [dictModify, hk] at h
      rcases h with h | h
      · exact Or.inl (by simp [h])
      · rcases ih h with h | ⟨w', hw', hp⟩
        · exact Or.inl (by simp [h])
        · exact Or.inr ⟨w', by simp [hw'], hp⟩

theorem foldlInv {α β : Type} (f : β → α → β) (Inv : β → Prop) :
    ∀ (l : List α) (b : β), Inv b →
      (∀ b' a, a ∈ l → Inv b' → Inv (f b' a)) → Inv (l.foldl f b) := by
  intro l
  induction l with
  | nil => intro b hb _; simpa using hb
  | cons a l ih =>
    intro b hb hstep
    simp only [List.foldl_cons]
    exact ih _ (hstep b a (by simp) hb) (fun b' x hx => hstep b' x (by simp [hx]))

/-- Every adjacency-list entry of `rg` satisfies `P`. -/
def RGood (P : String → Prop) (rg : Dict (List String)) : Prop :=
  ∀ p ∈ rg, ∀ x ∈ p.2, P x

theorem RGood_dictSet_nil {P : String → Prop} {rg : Dict (List String)} {k : String}
    (h : RGood P rg) : RGood P (dictSet rg k []) := by
  intro p hp x hx
  rcases mem_of_mem_dictSet hp with hp | rfl
  · exact h p hp x hx
  · simp at hx

theorem RGood_dictModify_append {P : String → Prop} {rg : Dict (List String)}
    {k y : String} (h : RGood P rg) (hy : P y) :
    RGood P (dictModify rg k (fun l => l ++ [y])) := by
  intro p hp x hx
  rcases mem_of_mem_dictModify hp with hp | ⟨w, hw, rfl⟩
  · exact h p hp x hx
  · simp only [List.mem_append, List.mem_singleton] at hx
    rcases hx with hx | rfl
    · exact h (k, w) hw x hx
    · exact hy

theorem RGood_depStep {P : String → Prop} (g : Dict (List String) × Dict (List String))
    (name dep : String) (h : RGood P g.2) (hname : P name) :
    RGood P (depStep name g dep).2 := by
  simp only [depStep]
  refine RGood_dictModify_append ?_ hname
  split
  · exact h
  · exact RGood_dictSet_nil h

theorem RGood_compStep {P : String → Prop} (g : Dict (List String) × Dict (List String))
    (p : String × Component) (h : RGood P g.2) (hp : P p.1) :
    RGood P (compStep g p).2 := by
  simp only [compStep]
  exact foldlInv (depStep p.1) (fun g' => RGood P g'.2) p.2.depends_on
    (dictSet g.1 p.1 [], g.2) h
    (fun g' dep _ hInv => RGood_depStep g' p.1 dep hInv hp)

theorem RGood_setdefaultPass {P : String → Prop} (d : Dict (List String))
    (comps : Dict Component) (h : RGood P d) : RGood P (setdefaultPass d comps) := by
  simp only [setdefaultPass]
  refine foldlInv _ (RGood P) _ _ h (fun d' p _ hInv => ?_)
  dsimp only
  split
  · exact hInv
  · exact RGood_dictSet_nil hInv

/-- Every entry of every adjacency list of the reverse graph is the name of a
component of the architecture (phantom keys exist, but never phantom
values). -/
theorem build_rev_values (arch : Architecture) :
    RGood (fun x => x ∈ dictKeys arch.components) (build_dependency_graphs arch).2 := by
  simp only [build_dependency_graphs]
  apply RGood_setdefaultPass
  refine foldlInv compStep (fun g => RGood (fun x => x ∈ dictKeys arch.components) g.2)
    _ _ ?_ ?_
  · intro p hp x hx
    simp only [List.mem_map] at hp
    obtain ⟨q, _, rfl⟩ := hp
    simp at hx
  · intro g' p hp hInv
    exact RGood_compStep g' p hInv (List.mem_map_of_mem Prod.fst hp)

theorem compStep_fst_keys (g : Dict (List String) × Dict (List String))
    (p : String × Component) :
    dictKeys (compStep g p).1 = dictKeys (dictSet g.1 p.1 []) := by
  simp only [compStep]
  refine foldlInv (depStep p.1)
    (fun g' => dictKeys g'.1 = dictKeys (dictSet g.1 p.1 [])) _ _ rfl ?_
  intro g' dep _ hInv
  simp only [depStep]
  rw [dictKeys_dictModify]
  exact hInv

theorem buildFold_fst_mem (comps : Dict Component) :
    ∀ (g : Dict (List String) × Dict (List String)) (x : String),
      x ∈ dictKeys ((comps.foldl compStep g).1) ↔ x ∈ dictKeys g.1 ∨ x ∈ dictKeys comps := by
  induction comps with
  | nil => intro g x; simp [dictKeys]
  | cons p comps ih =>
    intro g x
    rw [List.foldl_cons, ih]
    have h2 : x ∈ dictKeys (compStep g p).1 ↔ x ∈ dictKeys g.1 ∨ x = p.1 := by
      rw [compStep_fst_keys, mem_dictKeys_dictSet]
    rw [h2, dictKeys_cons, List.mem_cons]
    tauto

theorem depStep_snd_keys_mono (g : Dict (List String) × Dict (List String))
    (name dep x : String) (h : x ∈ dictKeys g.2) :
    x ∈ dictKeys (depStep name g dep).2 := by
  simp only [depStep]
  rw [dictKeys_dictModify]
  split
  · exact h
  · exact (mem_dictKeys_dictSet _ _ _ _).mpr (Or.inl h)

theorem depStep_snd_keys_self (g : Dict (List String) × Dict (List String))
    (name dep : String) : dep ∈ dictKeys (depStep name g dep).2 := by
  simp only [depStep]
  rw [dictKeys_dictModify]
  split
  · next hcont => exact (dictGet?_isSome_iff _ _).mp hcont
  · exact (mem_dictKeys_dictSet _ _ _ _).mpr (Or.inr rfl)

theorem compStep_snd_keys_mono (g : Dict (List String) × Dict (List String))
    (p : String × Component) (x : String) (h : x ∈ dictKeys g.2) :
    x ∈ dictKeys (compStep g p).2 := by
  simp only [compStep]
  exact foldlInv (depStep p.1) (fun g' => x ∈ dictKeys g'.2) p.2.depends_on
    (dictSet g.1 p.1 [], g.2) h
    (fun g' dep _ hI => depStep_snd_keys_mono g' p.1 dep x hI)

theorem foldl_depStep_keys (name : String) :
    ∀ (deps : List String) (g : Dict (List String) × Dict (List String)) (dep : String),
      dep ∈ deps ∨ dep ∈ dictKeys g.2 →
      dep ∈ dictKeys ((deps.foldl (depStep name) g).2) := by
  intro deps
  induction deps with
  | nil =>
    intro g dep h
    simpa using h.resolve_left (by simp)
  | cons d deps ih =>
    intro g dep h
    rw [List.foldl_cons]
    rcases h with h | h
    · rcases List.mem_cons.mp h with rfl | h
      · exact ih _ _ (Or.inr (depStep_snd_keys_self g name dep))
      · exact ih _ _ (Or.inl h)
    · exact ih _ _ (Or.inr (depStep_snd_keys_mono g name d dep h))

theorem compStep_snd_keys_deps (g : Dict (List String) × Dict (List String))
    (p : String × Component) (dep : String) (hdep : dep ∈ p.2.depends_on) :
    dep ∈ dictKeys (compStep g p).2 := by
  simp only [compStep]
  exact foldl_depStep_keys p.1 p.2.depends_on _ dep (Or.inl hdep)

theorem buildFold_snd_mono (comps : Dict Component) :
    ∀ (g : Dict (List String) × Dict (List String)) (x : String), x ∈ dictKeys g.2 →
      x ∈ dictKeys ((comps.foldl compStep g).2) := by
  induction comps with
  | nil => intro g x h; simpa using h
  | cons p comps ih =>
    intro g x h
    rw [List.foldl_cons]
    exact ih _ x (compStep_snd_keys_mono g p x h)

theorem buildFold_snd_deps (comps : Dict Component) :
    ∀ (g : Dict (List String) × Dict (List String)), ∀ p ∈ comps, ∀ dep ∈ p.2.depends_on,
      dep ∈ dictKeys ((comps.foldl compStep g).2) := by
  induction comps with
  | nil => intro g p hp; simp at hp
  | cons q comps ih =>
    intro g p hp dep hdep
    rw [List.foldl_cons]
    rcases List.mem_cons.mp hp with rfl | hp
    · exact buildFold_snd_mono comps _ dep (compStep_snd_keys_deps g p dep hdep)
    · exact ih _ p hp dep hdep

theorem setdefaultPass_keys_mono (d : Dict (List String)) (comps : Dict Component)
    (x : String) (h : x ∈ dictKeys d) : x ∈ dictKeys (setdefaultPass d comps) := by
  simp only [setdefaultPass]
  refine foldlInv _ (fun d' => x ∈ dictKeys d') _ _ h (fun d' p _ hI => ?_)
  dsimp only
  split
  · exact hI
  · exact (mem_dictKeys_dictSet _ _ _ _).mpr (Or.inl hI)

theorem setdefaultPass_eq_self (d : Dict (List String)) (comps : Dict Component)
    (h : ∀ p ∈ comps, p.1 ∈ dictKeys d) : setdefaultPass d comps = d := by
  simp only [setdefaultPass]
  refine foldlInv _ (fun d' => d' = d) _ _ rfl (fun d' p hp hI => ?_)
  subst hI
  rw [if_pos]
  unfold dictContains
  exact (dictGet?_isSome_iff _ _).mpr (h p hp)

theorem build_fwd_keys_iff (arch : Architecture) (x : String) :
    x ∈ dictKeys (build_dependency_graphs arch).1 ↔ x ∈ dictKeys arch.components := by
  simp only [build_dependency_graphs]
  have hfold : ∀ y, y ∈ dictKeys ((arch.components.foldl compStep
      ([], arch.components.map (fun p => (p.1, [])))).1) ↔ y ∈ dictKeys arch.components := by
    intro y
    rw [buildFold_fst_mem]
    simp [dictKeys]
  rw [setdefaultPass_eq_self _ _ (fun p hp => (hfold p.1).mpr (List.mem_map_of_mem _ hp))]
  exact hfold x

theorem build_rev_keys_super (arch : Architecture) (x : String)
    (h : x ∈ dictKeys arch.components) : x ∈ dictKeys (build_dependency_graphs arch).2 := by
  simp only [build_dependency_graphs]
  apply setdefaultPass_keys_mono
  apply buildFold_snd_mono
  simpa [dictKeys, List.map_map] using h

theorem build_rev_keys_deps (arch : Architecture) (p : String × Component)
    (hp : p ∈ arch.components) (dep : String) (hdep : dep ∈ p.2.depends_on) :
    dep ∈ dictKeys (build_dependency_graphs arch).2 := by
  simp only [build_dependency_graphs]
  apply setdefaultPass_keys_mono
  exact buildFold_snd_deps arch.components _ p hp dep hdep

/-- Claim C4: for every architecture, the forward graph key set equals the
component-name set, the reverse graph key set contains it, and every
dependency target (in particular every dangling one) appears as a key of the
reverse graph.  `build_dependency_graphs` is a total function, so no error
is ever raised for dangling dependencies. -/
theorem claim_C4 (arch : Architecture) :
    (∀ x, x ∈ dictKeys (build_dependency_graphs arch).1 ↔ x ∈ dictKeys arch.components)
    ∧ (∀ x, x ∈ dictKeys arch.components → x ∈ dictKeys (build_dependency_graphs arch).2)
    ∧ (∀ p ∈ arch.components, ∀ dep ∈ p.2.depends_on,
        dep ∈ dictKeys (build_dependency_graphs arch).2) :=
  ⟨fun x => build_fwd_keys_iff arch x,
   fun x h => build_rev_keys_super arch x h,
   fun p hp dep hdep => build_rev_keys_deps arch p hp dep hdep⟩

/-- A one-component architecture with a dangling dependency target. -/
def archPh : Architecture where
  system_name := "Phantom"
  components := [("A", { name := "A", ctype := "service", depends_on := ["ghost"] })]
  nodup_keys := by decide
  key_eq_name := by decide

theorem claim_C4_witness :
    "ghost" ∈ dictKeys (build_dependency_graphs archPh).2
    ∧ "A" ∈ dictKeys (build_dependency_graphs archPh).1 :=
  ⟨(claim_C4 archPh).2.2 ("A", { name := "A", ctype := "service", depends_on := ["ghost"] })
      (by decide) "ghost" (by decide),
   ((claim_C4 archPh).1 "A").mpr (by decide)⟩

theorem simLoop_subset (rg : Dict (List String)) :
    ∀ (fuel : Nat) (imp stk r : List String), simLoop rg fuel imp stk = some r →
      ∀ x, x ∈ imp ∨ x ∈ stk → x ∈ r := by
  intro fuel
  induction fuel with
  | zero =>
    intro imp stk r h x hx
    cases stk with
    | nil =>
      simp only [simLoop, Option.some.injEq] at h
      subst h
      exact hx.resolve_right (by simp)
    | cons c rest => simp [simLoop] at h
  | succ fuel ih =>
    intro imp stk r h x hx
    cases stk with
    | nil =>
      simp only [simLoop, Option.some.injEq] at h
      subst h
      exact hx.resolve_right (by simp)
    | cons c rest =>
      simp only [simLoop] at h
      by_cases hc : c ∈ imp
      · rw [if_pos hc] at h
        rcases hx with hx | hx
        · exact ih imp rest r h x (Or.inl hx)
        · rcases List.mem_cons.mp hx with rfl | hx
          · exact ih imp rest r h x (Or.inl hc)
          · exact ih imp rest r h x (Or.inr hx)
      · rw [if_neg hc] at h
        rcases hx with hx | hx
        · exact ih _ _ r h x (Or.inl (List.mem_cons_of_mem c hx))
        · rcases List.mem_cons.mp hx with rfl | hx
          · exact ih _ _ r h x (Or.inl (List.mem_cons_self x imp))
          · exact ih _ _ r h x (Or.inr (List.mem_append_right _ hx))

theorem simLoop_sound (rg : Dict (List String)) (P : String → Prop)
    (hstep : ∀ x, P x → ∀ d ∈ rgGet rg x, P d) :
    ∀ (fuel : Nat) (imp stk r : List String), simLoop rg fuel imp stk = some r →
      (∀ x ∈ imp, P x) → (∀ x ∈ stk, P x) → ∀ x ∈ r, P x := by
  intro fuel
  induction fuel with
  | zero =>
    intro imp stk r h himp hstk x hx
    cases stk with
    | nil =>
      simp only [simLoop, Option.some.injEq] at h
      subst h
      exact himp x hx
    | cons c rest => simp [simLoop] at h
  | succ fuel ih =>
    intro imp stk r h himp hstk x hx
    cases stk with
    | nil =>
      simp only [simLoop, Option.some.injEq] at h
      subst h
      exact himp x hx
    | cons c rest =>
      simp only [simLoop] at h
      by_cases hc : c ∈ imp
      · rw [if_pos hc] at h
        exact ih imp rest r h himp (fun y hy => hstk y (List.mem_cons_of_mem c hy)) x hx
      · rw [if_neg hc] at h
        have hcP : P c := hstk c (List.mem_cons_self c rest)
        refine ih _ _ r h ?_ ?_ x hx
        · intro y hy
          rcases List.mem_cons.mp hy with rfl | hy
          · exact hcP
          · exact himp y hy
        · intro y hy
          rcases List.mem_append.mp hy with hy | hy
          · rw [List.mem_reverse] at hy
            exact hstep c hcP y (List.mem_of_mem_filter hy)
          · exact hstk y (List.mem_cons_of_mem c hy)

theorem simLoop_closed (rg : Dict (List String)) :
    ∀ (fuel : Nat) (imp stk r : List String), simLoop rg fuel imp stk = some r →
      (∀ x ∈ imp, ∀ d ∈ rgGet rg x, d ∈ imp ∨ d ∈ stk) →
      ∀ x ∈ r, ∀ d ∈ rgGet rg x, d ∈ r := by
  intro fuel
  induction fuel with
  | zero =>
    intro imp stk r h hinv x hx d hd
    cases stk with
    | nil =>
      simp only [simLoop, Option.some.injEq] at h
      subst h
      exact (hinv x hx d hd).resolve_right (by simp)
    | cons c rest => simp [simLoop] at h
  | succ fuel ih =>
    intro imp stk r h hinv x hx d hd
    cases stk with
    | nil =>
      simp only [simLoop, Option.some.injEq] at h
      subst h
      exact (hinv x hx d hd).resolve_right (by simp)
    | cons c rest =>
      simp only [simLoop] at h
      by_cases hc : c ∈ imp
      · rw [if_pos hc] at h
        refine ih imp rest r h ?_ x hx d hd
        intro y hy e he
        rcases hinv y hy e he with h1 | h1
        · exact Or.inl h1
        · rcases List.mem_cons.mp h1 with rfl | h1
          · exact Or.inl hc
          · exact Or.inr h1
      · rw [if_neg hc] at h
        refine ih _ _ r h ?_ x hx d hd
        intro y hy e he
        rcases List.mem_cons.mp hy with rfl | hy
        · by_cases hei : e ∈ y :: imp
          · exact Or.inl hei
          · refine Or.inr (List.mem_append_left _ ?_)
            rw [List.mem_reverse]
            exact List.mem_filter.mpr ⟨he, by simpa using hei⟩
        · rcases hinv y hy e he with h1 | h1
          · exact Or.inl (List.mem_cons_of_mem c h1)
          · rcases List.mem_cons.mp h1 with rfl | h1
            · exact Or.inl (List.mem_cons_self e imp)
            · exact Or.inr (List.mem_append_right _ h1)

theorem simLoop_nodup (rg : Dict (List String)) :
    ∀ (fuel : Nat) (imp stk r : List String), simLoop rg fuel imp stk = some r →
      imp.Nodup → r.Nodup := by
  intro fuel
  induction fuel with
  | zero =>
    intro imp stk r h hnd
    cases stk with
    | nil =>
      simp only [simLoop, Option.some.injEq] at h
      subst h
      exact hnd
    | cons c rest => simp [simLoop] at h
  | succ fuel ih =>
    intro imp stk r h hnd
    cases stk with
    | nil =>
      simp only [simLoop, Option.some.injEq] at h
      subst h
      exact hnd
    | cons c rest =>
      simp only [simLoop] at h
      by_cases hc : c ∈ imp
      · rw [if_pos hc] at h
        exact ih imp rest r h hnd
      · rw [if_neg hc] at h
        exact ih _ _ r h (List.nodup_cons.mpr ⟨hc, hnd⟩)

theorem rgGet_length_le (rg : Dict (List String)) (k : String) :
    (rgGet rg k).length ≤ rgOut rg := by
  unfold rgGet rgOut
  cases h : dictGet? rg k with
  | none => simp
  | some v =>
    have hv : v.length ∈ (rg.map Prod.snd).map List.length :=
      List.mem_map_of_mem List.length (List.mem_map_of_mem Prod.snd (dictGet?_mem h))
    simpa using List.single_le_sum (fun y _ => Nat.zero_le y) v.length hv

theorem mem_rgNodes_of_rgGet {rg : Dict (List String)} {x d : String}
    (h : d ∈ rgGet rg x) : d ∈ rgNodes rg := by
  unfold rgGet at h
  cases hg : dictGet? rg x with
  | none => rw [hg] at h; simp at h
  | some v =>
    rw [hg] at h
    refine List.mem_append_right _ (List.mem_flatten.mpr ⟨v, ?_, h⟩)
    exact List.mem_map_of_mem Prod.snd (dictGet?_mem hg)

theorem simLoop_isSome_of_measure_le (rg : Dict (List String)) :
    ∀ (fuel : Nat) (imp stk : List String), simMeasure rg imp stk ≤ fuel →
      (simLoop rg fuel imp stk).isSome := by
  intro fuel
  induction fuel with
  | zero =>
    intro imp stk h
    cases stk with
    | nil => simp [simLoop]
    | cons c rest =>
      exfalso
      unfold simMeasure at h
      simp only [List.length_cons] at h
      omega
  | succ fuel ih =>
    intro imp stk h
    cases stk with
    | nil => simp [simLoop]
    | cons c rest =>
      simp only [simLoop]
      unfold simMeasure at h
      simp only [List.length_cons] at h
      by_cases hc : c ∈ imp
      · rw [if_pos hc]
        refine ih imp rest ?_
        unfold simMeasure
        omega
      · rw [if_neg hc]
        by_cases hU : c ∈ rgNodes rg
        · -- c is a node of the graph: the filtered-universe count strictly drops
          refine ih _ _ ?_
          unfold simMeasure
          have hsub : List.Sublist ((rgNodes rg).filter (fun x => decide (x ∉ c :: imp)))
              ((rgNodes rg).filter (fun x => decide (x ∉ imp))) := by
            refine List.monotone_filter_right _ (fun a ha => ?_)
            simp only [decide_eq_true_eq] at ha ⊢
            exact fun hmem => ha (List.mem_cons_of_mem c hmem)
          have hlt : ((rgNodes rg).filter (fun x => decide (x ∉ c :: imp))).length
              < ((rgNodes rg).filter (fun x => decide (x ∉ imp))).length := by
            refine lt_of_le_of_ne hsub.length_le (fun hlen => ?_)
            have heq := hsub.eq_of_length hlen
            have hcmem : c ∈ (rgNodes rg).filter (fun x => decide (x ∉ imp)) :=
              List.mem_filter.mpr ⟨hU, by simpa using hc⟩
            rw [← heq] at hcmem
            have := (List.mem_filter.mp hcmem).2
            simp at this
          have hnew : ((rgGet rg c).filter
              (fun d => decide (d ∉ c :: imp))).reverse.length + 1 ≤ 1 + rgOut rg := by
            have h1 : ((rgGet rg c).filter
                (fun d => decide (d ∉ c :: imp))).length ≤ (rgGet rg c).length :=
              (List.filter_sublist _).length_le
            have h2 := rgGet_length_le rg c
            simp only [List.length_reverse]
            omega
          simp only [List.length_append, List.length_reverse]
          have hmul : (((rgNodes rg).filter (fun x => decide (x ∉ c :: imp))).length + 1)
              * (1 + rgOut rg)
              ≤ (((rgNodes rg).filter (fun x => decide (x ∉ imp))).length) * (1 + rgOut rg) :=
            Nat.mul_le_mul_right _ hlt
          rw [Nat.succ_mul] at hmul
          simp only [List.length_reverse] at hnew
          omega
        · -- c is not a node of the graph: it has no entry, nothing is pushed
          have hget : rgGet rg c = [] := by
            unfold rgGet
            rw [dictGet?_eq_none_of_not_mem (fun hk => hU (List.mem_append_left _ hk))]
            rfl
          refine ih _ _ ?_
          unfold simMeasure
          have hfilter : (rgNodes rg).filter (fun x => decide (x ∉ c :: imp))
              = (rgNodes rg).filter (fun x => decide (x ∉ imp)) := by
            refine List.filter_congr (fun x hx => ?_)
            have hxc : x ≠ c := fun hxc => hU (hxc ▸ hx)
            simp [List.mem_cons, hxc]
          rw [hget, hfilter]
          simp only [List.filter_nil, List.reverse_nil, List.nil_append]
          omega

/-- Reflexive-transitive reachability along a graph dict: `RevReach rg x y`
holds when `y` is reachable from `x` by repeatedly following adjacency
entries.  On the reverse dependency graph this is exactly "y transitively
depends on x". -/
inductive RevReach (rg : Dict (List String)) : String → String → Prop
  | refl (x : String) : RevReach rg x x
  | step {x y z : String} : RevReach rg x y → z ∈ rgGet rg y → RevReach rg x z

theorem simMeasure_nil_imp (rg : Dict (List String)) (stk : List String) :
    simMeasure rg [] stk = simFuel rg stk := by
  unfold simMeasure simFuel
  simp

theorem simLoopRun_eq_some (rg : Dict (List String)) (failed : String) :
    ∃ r, simLoop rg (simFuel rg [failed]) [] [failed] = some r :=
  Option.isSome_iff_exists.mp
    (simLoop_isSome_of_measure_le rg (simFuel rg [failed]) [] [failed]
      (le_of_eq (simMeasure_nil_imp rg [failed])))

theorem simImpacted_spec (arch : Architecture) (failed : String) :
    (∀ y, y ∈ simImpacted arch failed ↔
      RevReach (build_dependency_graphs arch).2 failed y)
    ∧ (simImpacted arch failed).Nodup := by
  obtain ⟨r, hr⟩ := simLoopRun_eq_some (build_dependency_graphs arch).2 failed
  have hraw : simImpacted arch failed = r := by
    simp only [simImpacted, hr, Option.getD_some]
  rw [hraw]
  constructor
  · intro y
    constructor
    · intro hy
      refine simLoop_sound _ (RevReach (build_dependency_graphs arch).2 failed)
        (fun x hx d hd => RevReach.step hx hd) _ _ _ _ hr (by simp) ?_ y hy
      intro x hx
      rcases List.mem_cons.mp hx with rfl | hx
      · exact RevReach.refl x
      · simp at hx
    · intro hy
      induction hy with
      | refl => exact simLoop_subset _ _ _ _ _ hr failed (Or.inr (by simp))
      | step hxy hmem ih =>
        exact simLoop_closed _ _ _ _ _ hr (by simp) _ ih _ hmem
  · exact simLoop_nodup _ _ _ _ _ hr List.nodup_nil

theorem rgGet_values_keys (arch : Architecture) (y d : String)
    (hd : d ∈ rgGet (build_dependency_graphs arch).2 y) :
    d ∈ dictKeys arch.components := by
  unfold rgGet at hd
  cases hg : dictGet? (build_dependency_graphs arch).2 y with
  | none => rw [hg] at hd; simp at hd
  | some v =>
    rw [hg] at hd
    exact build_rev_values arch (y, v) (dictGet?_mem hg) d hd

theorem simImpacted_subset_keys (arch : Architecture) (failed : String)
    (h : failed ∈ dictKeys arch.components) :
    ∀ y ∈ simImpacted arch failed, y ∈ dictKeys arch.components := by
  intro y hy
  have hreach := ((simImpacted_spec arch failed).1 y).mp hy
  induction hreach with
  | refl => exact h
  | step hxy hmem ih => exact rgGet_values_keys arch _ _ hmem

theorem foldlM_severity_isSome (components : Dict Component) :
    ∀ (l : List String) (s : ℚ), (∀ y ∈ l, y ∈ dictKeys components) →
      ∃ t, List.foldlM (severityStep components) s l = some t := by
  intro l
  induction l with
  | nil => intro s _; exact ⟨s, rfl⟩
  | cons a l ih =>
    intro s hmem
    obtain ⟨comp, hcomp⟩ := Option.isSome_iff_exists.mp
      ((dictGet?_isSome_iff components a).mpr (hmem a (by simp)))
    rw [List.foldlM_cons]
    obtain ⟨s', hs'⟩ : ∃ s', severityStep components s a = some s' :=
      Option.isSome_iff_exists.mp (by simp [severityStep, hcomp])
    rw [hs']
    simpa using ih _ (fun y hy => hmem y (by simp [hy]))

theorem compute_severity_isSome (arch : Architecture) (names : List String) (b : Bool)
    (h : ∀ y ∈ names, y ∈ dictKeys arch.components) :
    (compute_severity arch names b).isSome := by
  simp only [compute_severity]
  obtain ⟨t, ht⟩ := foldlM_severity_isSome arch.components names _ h
  rw [ht]
  simp

theorem charListLe_total : ∀ (a b : List Char),
    charListLe a b = true ∨ charListLe b a = true := by
  intro a
  induction a with
  | nil => intro b; exact Or.inl rfl
  | cons x xs ih =>
    intro b
    cases b with
    | nil => exact Or.inr rfl
    | cons y ys =>
      by_cases h1 : x.toNat < y.toNat
      · exact Or.inl (by simp [charListLe, h1])
      · by_cases h2 : y.toNat < x.toNat
        · exact Or.inr (by simp [charListLe, h2])
        · rcases ih ys with h | h
          · exact Or.inl (by simp [charListLe, h1, h2, h])
          · exact Or.inr (by simp [charListLe, h1, h2, h])

theorem charListLe_trans : ∀ (a b c : List Char), charListLe a b = true →
    charListLe b c = true → charListLe a c = true := by
  intro a
  induction a with
  | nil => intro b c _ _; rfl
  | cons x xs ih =>
    intro b c hab hbc
    cases b with
    | nil => simp [charListLe] at hab
    | cons y ys =>
      cases c with
      | nil => simp [charListLe] at hbc
      | cons z zs =>
        simp only [charListLe] at hab hbc ⊢
        by_cases h1 : x.toNat < y.toNat
        · by_cases h2 : y.toNat < z.toNat
          · rw [if_pos (by omega : x.toNat < z.toNat)]
          · rw [if_neg h2] at hbc
            by_cases h3 : z.toNat < y.toNat
            · rw [if_pos h3] at hbc; simp at hbc
            · rw [if_pos (by omega : x.toNat < z.toNat)]
        · rw [if_neg h1] at hab
          by_cases h4 : y.toNat < x.toNat
          · rw [if_pos h4] at hab; simp at hab
          · rw [if_neg h4] at hab
            by_cases h2 : y.toNat < z.toNat
            · rw [if_pos (by omega : x.toNat < z.toNat)]
            · rw [if_neg h2] at hbc
              by_cases h3 : z.toNat < y.toNat
              · rw [if_pos h3] at hbc; simp at hbc
              · rw [if_neg h3] at hbc
                rw [if_neg (by omega : ¬x.toNat < z.toNat),
                  if_neg (by omega : ¬z.toNat < x.toNat)]
                exact ih ys zs hab hbc

instance : IsTotal String (fun a b => strLe a b = true) :=
  ⟨fun a b => charListLe_total a.data b.data⟩

instance : IsTrans String (fun a b => strLe a b = true) :=
  ⟨fun a b c => charListLe_trans a.data b.data c.data⟩

theorem simulate_failure_ok (arch : Architecture) (failed : String)
    (h : failed ∈ dictKeys arch.components) :
    ∃ res, simulate_failure arch failed = Except.ok res
      ∧ res.impacted_components
        = List.insertionSort (fun a b => strLe a b = true) (simImpacted arch failed) := by
  simp only [simulate_failure]
  rw [if_neg (not_not_intro h)]
  obtain ⟨s, hs⟩ := Option.isSome_iff_exists.mp
    (compute_severity_isSome arch (simImpacted arch failed)
      ((_get_public_entrypoints arch).any
        (fun name => decide (name ∈ simImpacted arch failed)))
      (simImpacted_subset_keys arch failed h))
  rw [hs]
  exact ⟨_, rfl, rfl⟩

/-- Claim C10: the worklist traversal of `simulate_failure` terminates for
every architecture and every start component, including architectures whose
dependency relation has cycles or self-dependencies: the fuel used by
`simImpacted` is never exhausted, because the loop never revisits a node
already in the impacted set. -/
theorem claim_C10 (arch : Architecture) (failed : String) :
    (simLoop (build_dependency_graphs arch).2
      (simFuel (build_dependency_graphs arch).2 [failed]) [] [failed]).isSome :=
  simLoop_isSome_of_measure_le _ _ _ _ (le_of_eq (simMeasure_nil_imp _ _))

/-- Claim C2: for every architecture and every existing failed component,
the impacted set returned by `simulate_failure` is exactly the
reflexive-transitive reachability closure of the failed component over the
reverse dependency graph, exposed as a sorted sequence; the failed component
is always a member, and when nothing transitively depends on it the list is
exactly the singleton. -/
theorem claim_C2 (arch : Architecture) (failed : String)
    (h : failed ∈ dictKeys arch.components) :
    ∃ res, simulate_failure arch failed = Except.ok res
      ∧ (∀ y, y ∈ res.impacted_components ↔
          RevReach (build_dependency_graphs arch).2 failed y)
      ∧ List.Pairwise (fun a b => strLe a b = true) res.impacted_components
      ∧ failed ∈ res.impacted_components
      ∧ ((∀ y, RevReach (build_dependency_graphs arch).2 failed y → y = failed) →
          res.impacted_components = [failed]) := by
  obtain ⟨res, hres, himp⟩ := simulate_failure_ok arch failed h
  have hperm : res.impacted_components.Perm (simImpacted arch failed) := by
    rw [himp]; exact List.perm_insertionSort _ _
  have hmem : ∀ y, y ∈ res.impacted_components ↔ y ∈ simImpacted arch failed :=
    fun y => hperm.mem_iff
  have hfailed : failed ∈ res.impacted_components := by
    rw [hmem failed, (simImpacted_spec arch failed).1 failed]
    exact RevReach.refl failed
  refine ⟨res, hres, ?_, ?_, hfailed, ?_⟩
  · intro y; rw [hmem y]; exact (simImpacted_spec arch failed).1 y
  · rw [himp]
    exact List.sorted_insertionSort _ _
  · intro honly
    have hnd : res.impacted_components.Nodup :=
      hperm.nodup_iff.mpr (simImpacted_spec arch failed).2
    have hall : ∀ y ∈ res.impacted_components, y = failed := by
      intro y hy
      exact honly y (((simImpacted_spec arch failed).1 y).mp ((hmem y).mp hy))
    cases hl : res.impacted_components with
    | nil => rw [hl] at hfailed; simp at hfailed
    | cons a t =>
      rw [hl] at hall hnd
      have ha : a = failed := hall a (by simp)
      cases t with
      | nil => rw [ha]
      | cons b t2 =>
        exfalso
        have hb : b = failed := hall b (by simp)
        exact (List.nodup_cons.mp hnd).1 (by simp [ha, hb])

theorem claim_C2_witness :
    ∃ res, simulate_failure archW "D" = Except.ok res
      ∧ (∀ y, y ∈ res.impacted_components ↔
          RevReach (build_dependency_graphs archW).2 "D" y)
      ∧ List.Pairwise (fun a b => strLe a b = true) res.impacted_components
      ∧ "D" ∈ res.impacted_components
      ∧ ((∀ y, RevReach (build_dependency_graphs archW).2 "D" y → y = "D") →
          res.impacted_components = ["D"]) :=
  claim_C2 archW "D" (by decide)

theorem generate_failure_scenarios_eq (arch : Architecture) :
    generate_failure_scenarios arch =
      (if (arch.components.filter (fun p => p.2.ctype ∈ critical_types)).map Prod.fst = []
       then arch.components.map Prod.fst
       else (arch.components.filter (fun p => p.2.ctype ∈ critical_types)).map Prod.fst) := by
  simp only [generate_failure_scenarios]
  have key : ∀ (l : Dict Component) (acc : List String),
      l.foldl (fun scenarios p =>
        if p.2.ctype ∈ critical_types then scenarios ++ [p.1] else scenarios) acc
      = acc ++ (l.filter (fun p => p.2.ctype ∈ critical_types)).map Prod.fst := by
    intro l
    induction l with
    | nil => intro acc; simp
    | cons p l ih =>
      intro acc
      rw [List.foldl_cons]
      by_cases hp : p.2.ctype ∈ critical_types
      · rw [if_pos hp, ih, List.filter_cons_of_pos (by simpa using hp)]
        simp
      · rw [if_neg hp, ih, List.filter_cons_of_neg (by simpa using hp)]
  rw [key]
  simp

theorem generate_subset_keys (arch : Architecture) :
    ∀ c ∈ generate_failure_scenarios arch, c ∈ dictKeys arch.components := by
  intro c hc
  rw [generate_failure_scenarios_eq] at hc
  split at hc
  · exact hc
  · obtain ⟨p, hp, rfl⟩ := List.mem_map.mp hc
    exact List.mem_map_of_mem Prod.fst (List.mem_of_mem_filter hp)

/-- Claim C6: `simulate_failure` on a component absent from the architecture
fails with the unknown-component error and on a present component never
raises; the scenario selector only yields existing components, so in the
pipeline the error branch is unreachable. -/
theorem claim_C6 (arch : Architecture) (failed : String) :
    (failed ∉ dictKeys arch.components →
      simulate_failure arch failed = Except.error SimError.unknownComponent)
    ∧ (failed ∈ dictKeys arch.components →
      ∃ res, simulate_failure arch failed = Except.ok res)
    ∧ (∀ c ∈ generate_failure_scenarios arch, c ∈ dictKeys arch.components) := by
  refine ⟨?_, ?_, generate_subset_keys arch⟩
  · intro h
    simp only [simulate_failure]
    rw [if_pos h]
  · intro h
    obtain ⟨res, hres, _⟩ := simulate_failure_ok arch failed h
    exact ⟨res, hres⟩

theorem claim_C6_witness :
    simulate_failure archW "Z" = Except.error SimError.unknownComponent
    ∧ (∃ res, simulate_failure archW "D" = Except.ok res)
    ∧ "G" ∈ dictKeys archW.components :=
  ⟨(claim_C6 archW "Z").1 (by decide),
   (claim_C6 archW "D").2.1 (by decide),
   (claim_C6 archW "G").2.2 "G" (by decide)⟩

/-- Claim C9: every name in the impacted set names a real component of the
architecture (phantom reverse-graph keys for dangling targets are never
reached), so the per-component lookups in `compute_severity` always
succeed. -/
theorem claim_C9 (arch : Architecture) (failed : String)
    (h : failed ∈ dictKeys arch.components) :
    ∃ res, simulate_failure arch failed = Except.ok res
      ∧ (∀ y ∈ res.impacted_components, y ∈ dictKeys arch.components)
      ∧ ∀ b, (compute_severity arch res.impacted_components b).isSome := by
  obtain ⟨res, hres, himp⟩ := simulate_failure_ok arch failed h
  have hsub : ∀ y ∈ res.impacted_components, y ∈ dictKeys arch.components := by
    intro y hy
    rw [himp] at hy
    exact simImpacted_subset_keys arch failed h y
      ((List.perm_insertionSort _ _).mem_iff.mp hy)
  exact ⟨res, hres, hsub, fun b => compute_severity_isSome arch _ b hsub⟩

theorem claim_C9_witness :
    ∃ res, simulate_failure archPh "A" = Except.ok res
      ∧ (∀ y ∈ res.impacted_components, y ∈ dictKeys archPh.components)
      ∧ ∀ b, (compute_severity archPh res.impacted_components b).isSome :=
  claim_C9 archPh "A" (by decide)

/-- Claim C8: for every non-empty architecture the scenario selector returns
a non-empty list: the components of critical type in insertion order, or the
full component list when there are none; it is a total function, never
failing. -/
theorem claim_C8 (arch : Architecture) (h : arch.components ≠ []) :
    generate_failure_scenarios arch ≠ []
    ∧ generate_failure_scenarios arch =
      (if (arch.components.filter (fun p => p.2.ctype ∈ critical_types)).map Prod.fst = []
       then arch.components.map Prod.fst
       else (arch.components.filter (fun p => p.2.ctype ∈ critical_types)).map Prod.fst) := by
  refine ⟨?_, generate_failure_scenarios_eq arch⟩
  rw [generate_failure_scenarios_eq]
  split
  · simpa using h
  · next hne => exact hne

theorem claim_C8_witness : generate_failure_scenarios archW = ["G", "D"] :=
  (claim_C8 archW (by decide)).2.trans (by decide)

theorem round2_zero : round2 0 = 0 := round2_eq_self_of 0 0 (by norm_num)

theorem round2_ten : round2 10 = 10 := round2_eq_self_of 10 1000 (by norm_num)

/-- Claim C3: aggregation. For scenario lists satisfying the ScenarioSummary
data-model invariant (severities nonnegative with two-decimal precision),
the overall resilience score equals `round2 (clampq (10 - mean severities) 0 10)`
and the worst-case severity equals the maximum severity; an empty scenario
list yields resilience 10.0 and worst case 0.0. -/
theorem claim_C3 (arch : Architecture) (scenarios : List ScenarioSummary)
    (risks : List SecurityRisk)
    (h : ∀ s ∈ scenarios, 0 ≤ s.severity ∧ round2 s.severity = s.severity) :
    (scenarios ≠ [] →
      (ReportingAgent.run arch scenarios risks).overall_resilience_score
        = round2 (clampq (10 - (scenarios.map (fun s => s.severity)).sum
            / ((scenarios.map (fun s => s.severity)).length : ℚ)) 0 10)
      ∧ (ReportingAgent.run arch scenarios risks).worst_case_severity
        = ((scenarios.map (fun s => s.severity)).max?).getD 0)
    ∧ (scenarios = [] →
      (ReportingAgent.run arch scenarios risks).overall_resilience_score = 10
      ∧ (ReportingAgent.run arch scenarios risks).worst_case_severity = 0) := by
  constructor
  · intro hne
    have hne' : scenarios.isEmpty = false := by
      simpa [List.isEmpty_iff] using hne
    have hsum : 0 ≤ (scenarios.map (fun s => s.severity)).sum := by
      refine List.sum_nonneg ?_
      intro x hx
      obtain ⟨s, hs, rfl⟩ := List.mem_map.mp hx
      exact (h s hs).1
    have hlen : 0 < ((scenarios.map (fun s => s.severity)).length : ℚ) := by
      have : 0 < scenarios.length := List.length_pos.mpr hne
      simp only [List.length_map]
      exact_mod_cast this
    have havg : 0 ≤ (scenarios.map (fun s => s.severity)).sum
        / ((scenarios.map (fun s => s.severity)).length : ℚ) :=
      div_nonneg hsum (le_of_lt hlen)
    constructor
    · simp only [ReportingAgent.run, hne', Bool.false_eq_true, if_false]
      rw [clampq, min_eq_left (by linarith)]
    · simp only [ReportingAgent.run, hne', Bool.false_eq_true, if_false]
      cases hmax : (scenarios.map (fun s => s.severity)).max? with
      | none => simp [round2_zero]
      | some m =>
        have hm : m ∈ scenarios.map (fun s => s.severity) :=
          List.max?_mem max_choice hmax
        obtain ⟨s, hs, rfl⟩ := List.mem_map.mp hm
        simp [(h s hs).2]
  · rintro rfl
    simp only [ReportingAgent.run, List.isEmpty_nil, if_true]
    constructor
    · rw [show (10 : ℚ) - 0 = 10 by norm_num, max_eq_right (by norm_num : (0:ℚ) ≤ 10),
        round2_ten]
    · exact round2_zero

/-- A concrete scenario summary for exercising the aggregation formula. -/
def scW : ScenarioSummary where
  scenario_name := "D FAILURE"
  failed_component := "D"
  severity := 9
  user_visible_impact := true
  impacted_components := ["D", "G", "S"]

theorem scW_severity_nonneg : 0 ≤ scW.severity := by norm_num [scW]

theorem scW_severity_round2 : round2 scW.severity = scW.severity := round2_nine

theorem claim_C3_witness :
    (ReportingAgent.run archW [scW] []).overall_resilience_score
      = round2 (clampq (10 - ([scW].map (fun s => s.severity)).sum
          / (([scW].map (fun s => s.severity)).length : ℚ)) 0 10)
    ∧ (ReportingAgent.run archW [scW] []).worst_case_severity
      = (([scW].map (fun s => s.severity)).max?).getD 0 :=
  (claim_C3 archW [scW] []
    (fun s hs => List.mem_singleton.mp hs ▸ ⟨scW_severity_nonneg, scW_severity_round2⟩)).1
    (by simp)

/-- Claim C7: the advisory-collaborator step of the remediation engine never
raises to the caller: on any collaborator failure (or absence) the result is
exactly the rule-based suggestions with zero additions, and on success the
returned objects have their missing fields defaulted (category "resilience",
target "system", priority "medium", title "AI-suggested remediation", empty
details). -/
theorem claim_C7 (arch : Architecture) (report : SystemReport) :
    (∀ e, RemediationAgent.run arch report (some (Except.error e))
        = ruleSuggestions arch report)
    ∧ RemediationAgent.run arch report none = ruleSuggestions arch report
    ∧ (∀ extra, RemediationAgent.run arch report (some (Except.ok extra))
        = ruleSuggestions arch report ++ extra.map (fun s => {
            category := s.category.getD "resilience"
            target := s.target.getD "system"
            priority := s.priority.getD "medium"
            title := s.title.getD "AI-suggested remediation"
            details := s.details.getD "" })) :=
  ⟨fun _ => rfl, rfl, fun _ => rfl⟩

theorem specSeenKeys_fst (comp : Component) :
    ∀ k ∈ specSeenKeys comp, k.1 = comp.name := by
  intro k hk
  unfold specSeenKeys at hk
  simp only [List.mem_append] at hk
  rcases hk with (hk | hk) | hk <;> (split at hk <;> simp_all)

theorem securityStep_fresh (acc : List SecurityRisk × List (String × String))
    (comp : Component) (h : ∀ k ∈ acc.2, k.1 ≠ comp.name) :
    securityStep acc comp = (acc.1 ++ specRiskTable comp, acc.2 ++ specSeenKeys comp) := by
  obtain ⟨risks, seen⟩ := acc
  have h1 : (comp.name, "DoS") ∉ seen := fun hm => h _ hm rfl
  have h2 : (comp.name, "Data Exposure") ∉ seen := fun hm => h _ hm rfl
  have h3 : (comp.name, "External API") ∉ seen := fun hm => h _ hm rfl
  by_cases c1 : comp.public = true ∧ comp.ctype ∈ ["gateway", "service", "web_client"] <;>
    by_cases c2 : comp.public = true ∧ comp.ctype = "database" <;>
      by_cases c3 : comp.ctype = "external_api" <;>
        simp [securityStep, specRiskTable, specSeenKeys, c1, c2, c3, h1, h2, h3] <;>
          (split <;> simp_all)

theorem securityFold (comps : List Component) :
    ∀ (acc : List SecurityRisk × List (String × String)),
      (∀ k ∈ acc.2, k.1 ∉ comps.map Component.name) →
      (comps.map Component.name).Nodup →
      comps.foldl securityStep acc
        = (acc.1 ++ flatMapList specRiskTable comps,
           acc.2 ++ flatMapList specSeenKeys comps) := by
  induction comps with
  | nil => intro acc _ _; simp [flatMapList]
  | cons c cs ih =>
    intro acc hfresh hnd
    simp only [List.map_cons, List.nodup_cons] at hnd
    rw [List.foldl_cons,
      securityStep_fresh acc c (fun k hk he => hfresh k hk (by simp [he])), ih]
    · simp [flatMapList]
    · intro k hk
      rcases List.mem_append.mp hk with hk | hk
      · intro hmem
        exact hfresh k hk (by simp [hmem])
      · rw [specSeenKeys_fst c k hk]
        exact hnd.1
    · exact hnd.2

theorem arch_names_nodup (arch : Architecture) :
    ((arch.components.map Prod.snd).map Component.name).Nodup := by
  have heq : (arch.components.map Prod.snd).map Component.name
      = arch.components.map Prod.fst := by
    rw [List.map_map]
    exact List.map_congr_left (fun p hp => arch.key_eq_name p hp)
  rw [heq]
  exact arch.nodup_keys

theorem analyze_security_eq (arch : Architecture) :
    analyze_security arch = flatMapList specRiskTable (arch.components.map Prod.snd) := by
  unfold analyze_security
  rw [securityFold (arch.components.map Prod.snd) ([], []) (by simp)
    (arch_names_nodup arch)]
  simp

theorem mem_flatMapList {α β : Type} (f : α → List β) :
    ∀ (l : List α) (b : β), b ∈ flatMapList f l ↔ ∃ a ∈ l, b ∈ f a := by
  intro l
  induction l with
  | nil => intro b; simp [flatMapList]
  | cons a l ih => intro b; simp [flatMapList, ih]

theorem specRiskTable_component (comp : Component) :
    ∀ r ∈ specRiskTable comp, r.component = comp.name := by
  intro r hr
  unfold specRiskTable at hr
  simp only [List.mem_append] at hr
  rcases hr with (hr | hr) | hr <;>
    (split at hr <;> simp_all [risk_rule1, risk_rule2, risk_rule3])

theorem specRiskTable_pairwise (comp : Component) :
    (specRiskTable comp).Pairwise
      (fun r1 r2 => ¬(r1.component = r2.component ∧ r1.risk_type = r2.risk_type)) := by
  unfold specRiskTable
  split <;> split <;> split <;>
    simp [List.pairwise_append, risk_rule1, risk_rule2, risk_rule3]

theorem analyze_pairwise (arch : Architecture) :
    (analyze_security arch).Pairwise
      (fun r1 r2 => ¬(r1.component = r2.component ∧ r1.risk_type = r2.risk_type)) := by
  rw [analyze_security_eq]
  have key : ∀ (comps : List Component), (comps.map Component.name).Nodup →
      (flatMapList specRiskTable comps).Pairwise
        (fun r1 r2 => ¬(r1.component = r2.component ∧ r1.risk_type = r2.risk_type)) := by
    intro comps
    induction comps with
    | nil => intro _; simp [flatMapList]
    | cons c cs ih =>
      intro hnd
      simp only [List.map_cons, List.nodup_cons] at hnd
      simp only [flatMapList]
      rw [List.pairwise_append]
      refine ⟨specRiskTable_pairwise c, ih hnd.2, ?_⟩
      intro r1 hr1 r2 hr2 hcontra
      obtain ⟨c', hc', hr2'⟩ := (mem_flatMapList specRiskTable cs r2).mp hr2
      have e1 := specRiskTable_component c r1 hr1
      have e2 := specRiskTable_component c' r2 hr2'
      refine hnd.1 ?_
      rw [← e1, hcontra.1, e2]
      exact List.mem_map_of_mem Component.name hc'
  exact key _ (arch_names_nodup arch)

/-- Claim C5: `analyze_security` emits, per component in architecture
iteration order, exactly the risks of the fixed three-rule table of the
specification, and the result never contains two risks with the same
(component, risk_type) pair. -/
theorem claim_C5 (arch : Architecture) :
    analyze_security arch = flatMapList specRiskTable (arch.components.map Prod.snd)
    ∧ (analyze_security arch).Pairwise
        (fun r1 r2 => ¬(r1.component = r2.component ∧ r1.risk_type = r2.risk_type)) :=
  ⟨analyze_security_eq arch, analyze_pairwise arch⟩

/-- An architecture triggering all three security rules. -/
def archSec : Architecture where
  system_name := "Sec"
  components :=
    [("GW", { name := "GW", ctype := "gateway", public := true }),
     ("DB", { name := "DB", ctype := "database", public := true }),
     ("EX", { name := "EX", ctype := "external_api" })]
  nodup_keys := by decide
  key_eq_name := by decide

theorem claim_C5_witness :
    analyze_security archSec = flatMapList specRiskTable (archSec.components.map Prod.snd)
    ∧ (analyze_security archSec).Pairwise
        (fun r1 r2 => ¬(r1.component = r2.component ∧ r1.risk_type = r2.risk_type)) :=
  claim_C5 archSec

/-- A concrete system report for exercising the remediation engine. -/
def reportW : SystemReport where
  system_name := "Worked"
  scenarios := [scW]
  security_risks := []
  overall_resilience_score := 1
  worst_case_severity := 9

/-- A collaborator-returned object with every field missing. -/
def sdW : SuggestionDict := {}

theorem claim_C7_witness :
    RemediationAgent.run archW reportW (some (Except.error "unreachable"))
      = ruleSuggestions archW reportW
    ∧ RemediationAgent.run archW reportW (some (Except.ok [sdW]))
      = ruleSuggestions archW reportW ++ [sdW].map (fun s => {
          category := s.category.getD "resilience"
          target := s.target.getD "system"
          priority := s.priority.getD "medium"
          title := s.title.getD "AI-suggested remediation"
          details := s.details.getD "" }) :=
  ⟨(claim_C7 archW reportW).1 "unreachable", (claim_C7 archW reportW).2.2 [sdW]⟩

theorem claim_C10_witness :
    (simLoop (build_dependency_graphs archW).2
      (simFuel (build_dependency_graphs archW).2 ["D"]) [] ["D"]).isSome :=
  claim_C10 archW "D"
